import Mathlib

/-!
Verification of the F1 practice-results notification bot (`src/main.py`)
against its specification.

The pipeline is embedded shallowly:

* JSON scalars that flow through Python `dict.get` are `Jatom` / `Jval`
  (absent keys and JSON `null` both surface as Python `None`, modelled
  by `.null`).
* Python truthiness (`if not x:`, `a or b`) is modelled explicitly.
* `list.sort(key=...)` / `sorted(..., key=...)` are Python's stable
  ascending sort; `pySort` models them by insertion sort with the
  non-strict key comparison, which has the same stability behaviour.
* Network reads are oracles passed as functions (`rowsOf` for
  `/session_result`); datetime parsing/formatting and `json.loads` are
  abstracted as function parameters whose `none` result models a raised
  exception caught by the surrounding `try`.
* `main` is `mainRun`, returning the terminal outcome together with the
  observable effects (whether a results fetch happened, whether the
  webhook message was sent, and the state written by `save_state`, if
  any).
-/

namespace F1Bot

/-- JSON-like atomic value. `session_key` and other scalar fields of API
payloads range over these. Absent keys and JSON `null` are both
represented by `null`, matching Python's `dict.get` returning `None` in
both cases. -/
inductive Jatom where
  | null
  | bool (b : Bool)
  | num (n : Int)
  | str (s : String)
deriving DecidableEq

/-- Full JSON value, used for the contents of the persisted state file. -/
inductive Jval where
  | null
  | bool (b : Bool)
  | num (n : Int)
  | str (s : String)
  | arr (elems : List Jval)
  | obj (fields : List (String × Jval))

/-- Python truthiness of an atomic value (`if not sk:`). -/
def Jatom.truthy : Jatom → Bool
  | .null => false
  | .bool b => b
  | .num n => n != 0
  | .str s => s != ""

/-- Embedding of atoms into full JSON values. -/
def Jatom.toJval : Jatom → Jval
  | .null => .null
  | .bool b => .bool b
  | .num n => .num n
  | .str s => .str s

/-- Python `==` between an arbitrary loaded JSON value and an atomic
value. Booleans compare equal to the corresponding integers
(`True == 1` in Python); containers never equal atoms. -/
def pyEqAtom : Jval → Jatom → Bool
  | .null, .null => true
  | .bool a, .bool b => a == b
  | .bool a, .num n => (if a then (1 : Int) else 0) == n
  | .num n, .bool b => n == (if b then (1 : Int) else 0)
  | .num a, .num b => a == b
  | .str a, .str b => a == b
  | _, _ => false

/-- A loaded Python dict (the persisted state object). -/
abbrev StateDict := List (String × Jval)

/-- Python `state.get(k)`: the stored value, or `None` for a missing key. -/
def dictGet (d : StateDict) (k : String) : Jval :=
  match d.lookup k with
  | some v => v
  | none => .null

/-- Python `state[k] = v`: replace the existing entry in place, else
append a new one at the end. -/
def dictSet : StateDict → String → Jval → StateDict
  | [], k, v => [(k, v)]
  | (k', v') :: rest, k, v =>
    if k' = k then (k, v) :: rest else (k', v') :: dictSet rest k v

/-- Python `a or b` on optional strings: `None` and `""` are falsy. -/
def pyOr (a b : Option String) : Option String :=
  match a with
  | some s => if s = "" then b else some s
  | none => b

/-- Python `a or d` collapsed to a string default. -/
def pyOrD (a : Option String) (d : String) : String :=
  match a with
  | some s => if s = "" then d else s
  | none => d

/-- Python truthiness of an optional string (the `DISCORD_WEBHOOK`
configuration value). -/
def truthyStr : Option String → Bool
  | none => false
  | some s => s != ""

/-- One session object of `GET /sessions?meeting_key=latest`. The
timestamp and name fields are optional strings (`none` models a missing
key or JSON `null`); the key is an arbitrary scalar. -/
structure Session where
  session_key : Jatom
  session_type : Option String
  session_name : Option String
  meeting_name : Option String
  country_name : Option String
  date_start : Option String
  date_end : Option String
deriving DecidableEq

/-- One result object of `GET /session_result?session_key=...`. -/
structure ResultRow where
  position : Option Int
  driver_first_name : Option String
  driver_last_name : Option String
  team_name : Option String
  best_lap_time : Option String
  time : Option String
deriving DecidableEq

/-- Lexicographic code-point comparison of character lists, the
non-strict version of Python's `<` on `str`. -/
def strLeL : List Char → List Char → Bool
  | [], _ => true
  | _ :: _, [] => false
  | a :: as, b :: bs =>
    if a.toNat < b.toNat then true
    else if b.toNat < a.toNat then false
    else strLeL as bs

/-- Python `a <= b` on strings: lexicographic by Unicode code point. -/
def strLe (a b : String) : Bool :=
  strLeL a.toList b.toList

/-- Python `a <= b` on integers. -/
def intLe (a b : Int) : Bool :=
  a ≤ b

/-- Python's `list.sort(key=...)` / `sorted(..., key=...)`: the stable
ascending sort. Insertion sort with the non-strict comparison `le` is
stable in exactly the same way (elements with equal keys keep their
input order). -/
def pySort {α : Type} (le : α → α → Bool) (l : List α) : List α :=
  l.insertionSort (fun a b => le a b = true)

/-- Comparator on list elements induced by a sort key. -/
def byKey {α κ : Type} (key : α → κ) (le : κ → κ → Bool) : α → α → Bool :=
  fun a b => le (key a) (key b)

/-- Sort key used by `get_latest_practice_session`:
`s.get("date_end") or s.get("date_start") or ""`. -/
def sort_key (s : Session) : String :=
  pyOrD (pyOr s.date_end s.date_start) ""

/-- `get_latest_practice_session`, with the fetched session list as
input: filter to entries whose `session_type` equals `"Practice"`, sort
by `sort_key` (stable ascending) and take the last element
(`practice[-1]`); `None` when no entry matches. -/
def get_latest_practice_session (sessions : List Session) : Option Session :=
  let practice := sessions.filter (fun s => s.session_type == some "Practice")
  if practice.isEmpty then
    none
  else
    (pySort (byKey sort_key strLe) practice).getLast?

/-- Ordering key of `get_session_results`: `x.get("position") or 9999`.
By Python truthiness a missing, `null`, or **zero** position falls back
to the sentinel 9999. -/
def posKey (x : ResultRow) : Int :=
  match x.position with
  | some p => if p = 0 then 9999 else p
  | none => 9999

/-- `get_session_results`, with the fetched rows as input:
`sorted(rows, key=lambda x: x.get("position") or 9999)`. -/
def get_session_results (rows : List ResultRow) : List ResultRow :=
  pySort (byKey posKey intLe) rows

/-- `format_when`. The datetime pipeline inside the `try` block
(`fromisoformat`, `astimezone(ZoneInfo(LOCAL_TZ))`, `strftime`) is
abstracted as `parseFmt`; a `none` result models any exception raised
there, caught by the `except` that returns the raw `iso` string.
`iso.replace("Z", "+00:00")` replaces every occurrence, as in Python. -/
def format_when (parseFmt : String → Option String) (meta : Session) : String :=
  match pyOr meta.date_end meta.date_start with
  | none => ""
  | some iso =>
    if iso = "" then ""
    else
      match parseFmt (iso.replace "Z" "+00:00") with
      | some s => s
      | none => iso

/-- Python `str.strip(". ")`: remove leading and trailing `.` and space
characters. -/
def stripDotSpace (s : String) : String :=
  ((s.toList.dropWhile (fun c => c = '.' || c = ' ')).reverse.dropWhile
    (fun c => c = '.' || c = ' ')).reverse.asString

/-- Python `str(x)` for the value of an optional `position` field:
`f"{pos}"` renders the integer, or the literal `"None"` when the field
is missing or null. -/
def posText (p : Option Int) : String :=
  match p with
  | some n => toString n
  | none => "None"

/-- The loop body of `main` building one message line:
`f"{pos}. {name} — {team}  {lap}"`. -/
def renderLine (row : ResultRow) : String :=
  let pos := posText row.position
  let first := (pyOrD row.driver_first_name "").take 1
  let last := pyOrD row.driver_last_name ""
  let name := stripDotSpace (first ++ ". " ++ last)
  let team := pyOrD row.team_name ""
  let lap := pyOrD (pyOr row.best_lap_time row.time) ""
  pos ++ ". " ++ name ++ " — " ++ team ++ "  " ++ lap

/-- The message lines of `main`: one rendered line per row of
`results[:TOP_N]`. -/
def buildLines (results : List ResultRow) (topN : Nat) : List String :=
  (results.take topN).map renderLine

/-- The message title of `main`:
`f"{gp} — {sname} Results ({when})"`. -/
def buildTitle (parseFmt : String → Option String) (sess : Session) : String :=
  let gp := pyOrD (pyOr sess.meeting_name sess.country_name) "Grand Prix"
  let sname := pyOrD sess.session_name "Practice"
  let when := format_when parseFmt sess
  gp ++ " — " ++ sname ++ " Results (" ++ when ++ ")"

/-- The default state `{"last_posted_session_key": None}` substituted by
`load_state` when the file is missing or unreadable. -/
def defaultState : Jval :=
  .obj [("last_posted_session_key", .null)]

/-- `load_state`, with the file modelled as `none` (missing) or its
content string, and `json.loads` abstracted as `parse` (a `none` result
models a raised exception, caught by the `except` branch). The
`try/except` makes the function total: it never fails the caller. -/
def load_state (parse : String → Option Jval) (file : Option String) : Jval :=
  match file with
  | none => defaultState
  | some content =>
    match parse content with
    | some v => v
    | none => defaultState

/-- Key lookup on a JSON value: `none` when the key is missing or the
value is not an object. -/
def Jval.getKey : Jval → String → Option Jval
  | .obj fields, k => fields.lookup k
  | _, _ => none

/-- Terminal point reached by one run of `main`. -/
inductive Outcome where
  | noSession
  | noKey
  | alreadyPosted
  | noResults
  | posted (title : String) (lines : List String)

/-- Observable behaviour of one run of `main`: the terminal outcome,
whether the `/session_result` fetch happened, whether a webhook message
was actually sent (`post_to_discord` sends only when `DISCORD_WEBHOOK`
is truthy), and the state written by `save_state`, if any. -/
structure RunResult where
  outcome : Outcome
  resultsFetched : Bool
  webhookSent : Bool
  savedState : Option StateDict

/-- Configuration read from the environment. -/
structure Config where
  webhook : Option String
  topN : Nat

/-- The `main` pipeline, starting from the loaded state dict. The
session list (`/sessions?meeting_key=latest`) and the raw result rows
per session key (`/session_result?session_key=...`) are oracle inputs;
`parseFmt` abstracts datetime handling as in `format_when`. The
returned session of `get_latest_practice_session` passed the
`session_type` filter, so as a Python dict it is nonempty and truthy;
hence `if not sess:` is modelled by the `Option` match. Transport
errors of the two HTTP reads and of the webhook POST abort the run and
are outside this model: the oracles always answer and delivery does not
raise. -/
def mainRun (cfg : Config) (parseFmt : String → Option String)
    (state : StateDict) (sessions : List Session)
    (rowsOf : Jatom → List ResultRow) : RunResult :=
  match get_latest_practice_session sessions with
  | none => ⟨.noSession, false, false, none⟩
  | some sess =>
    let sk := sess.session_key
    if !sk.truthy then
      ⟨.noKey, false, false, none⟩
    else if pyEqAtom (dictGet state "last_posted_session_key") sk then
      ⟨.alreadyPosted, false, false, none⟩
    else
      let results := get_session_results (rowsOf sk)
      if results.isEmpty then
        ⟨.noResults, true, false, none⟩
      else
        let lines := buildLines results cfg.topN
        let title := buildTitle parseFmt sess
        let newState := dictSet state "last_posted_session_key" sk.toJval
        ⟨.posted title lines, true, truthyStr cfg.webhook, some newState⟩

/-! Claim-side definitions, written from the specification's words, to
be compared with the definitions embedded from the source. -/

/-- Sort key as claim C2 words it: `date_end` if present, else
`date_start` if present, else the empty string. -/
def claimKeyC2 (s : Session) : String :=
  match s.date_end with
  | some e => e
  | none =>
    match s.date_start with
    | some st => st
    | none => ""

/-- Selection rule of claim C2: the entry whose key is greatest under
`le`, where of two entries with equal keys the one occurring later in
the list wins (`le a b` keeps the later entry `b` on ties). -/
def argmaxLastBy {α : Type} (le : α → α → Bool) : List α → Option α
  | [] => none
  | a :: l =>
    match argmaxLastBy le l with
    | none => some a
    | some b => if le a b then some b else some a

/-- Ordering key as claim C4 words it: the position if present, else
9999. -/
def claimPosKey (x : ResultRow) : Int :=
  match x.position with
  | some p => p
  | none => 9999

/-- First-initial as claim C8 words it: the first character of
`driver_first_name`, empty if the name is absent. -/
def specInitial (row : ResultRow) : String :=
  match row.driver_first_name with
  | none => ""
  | some s => s.take 1

/-- Rendered line as claim C8 words it:
`"<position>. <first-initial>. <last name> — <team name>  <lap-or-time>"`,
with the initial-plus-surname join stripped of leading and trailing
periods and spaces, absent fields rendered as empty strings, and the
position rendered as-is, including a literal `"None"` when missing. -/
def specLine (row : ResultRow) : String :=
  let posTxt :=
    match row.position with
    | some n => toString n
    | none => "None"
  let lastTxt :=
    match row.driver_last_name with
    | none => ""
    | some s => s
  let nameTxt := stripDotSpace (specInitial row ++ ". " ++ lastTxt)
  let teamTxt :=
    match row.team_name with
    | none => ""
    | some s => s
  let lapTxt := pyOrD (pyOr row.best_lap_time row.time) ""
  posTxt ++ ". " ++ nameTxt ++ " — " ++ teamTxt ++ "  " ++ lapTxt

/-! Concrete fixtures used by counterexamples and witnesses. -/

/-- A practice session whose `date_end` is present but empty: the code
sort key falls back to `date_start`. -/
def sessEmptyEnd : Session :=
  { session_key := .num 1, session_type := some "Practice",
    session_name := none, meeting_name := none, country_name := none,
    date_start := some "2024-01-02", date_end := some "" }

/-- A practice session with an ordinary `date_end`. -/
def sessPlainEnd : Session :=
  { session_key := .num 2, session_type := some "Practice",
    session_name := none, meeting_name := none, country_name := none,
    date_start := none, date_end := some "2024-01-01" }

/-- A race session, not practice. -/
def sessRace : Session :=
  { session_key := .num 3, session_type := some "Race",
    session_name := some "Race", meeting_name := none, country_name := none,
    date_start := none, date_end := some "2024-08-25T13:00:00+00:00" }

/-- The practice session of the end-to-end scenario. -/
def sessMain : Session :=
  { session_key := .num 9999, session_type := some "Practice",
    session_name := some "Practice 1", meeting_name := some "Dutch Grand Prix",
    country_name := none, date_start := none,
    date_end := some "2024-08-23T11:30:00+00:00" }

/-- A practice session with the falsy key `0`. -/
def sessZeroKey : Session :=
  { session_key := .num 0, session_type := some "Practice",
    session_name := some "Practice 2", meeting_name := none,
    country_name := none, date_start := none, date_end := none }

/-- A practice session with no timestamps at all. -/
def sessNoDates : Session :=
  { session_key := .num 4, session_type := some "Practice",
    session_name := none, meeting_name := none, country_name := none,
    date_start := none, date_end := none }

/-- A practice session whose timestamp is not ISO 8601. -/
def sessBadDate : Session :=
  { session_key := .num 5, session_type := some "Practice",
    session_name := none, meeting_name := none, country_name := none,
    date_start := none, date_end := some "not-a-date" }

/-- A complete result row. -/
def rowVer : ResultRow :=
  { position := some 1, driver_first_name := some "Max",
    driver_last_name := some "Verstappen", team_name := some "Red Bull Racing",
    best_lap_time := some "1:10.567", time := none }

/-- A row at position 1 with no other data. -/
def rowP1 : ResultRow :=
  { position := some 1, driver_first_name := none, driver_last_name := none,
    team_name := none, best_lap_time := none, time := none }

/-- A row whose position is the falsy integer 0. -/
def rowP0 : ResultRow :=
  { position := some 0, driver_first_name := none, driver_last_name := none,
    team_name := none, best_lap_time := none, time := none }

/-- A configuration with a webhook configured. -/
def cfgW : Config :=
  { webhook := some "https://example.test/hook", topN := 10 }

/-- Datetime oracle that always fails to parse. -/
def pfNone : String → Option String :=
  fun _ => none

/-- Results oracle returning one row for every key. -/
def rowsOne : Jatom → List ResultRow :=
  fun _ => [rowVer]

/-- Results oracle returning no rows. -/
def rowsNone : Jatom → List ResultRow :=
  fun _ => []

/-- The state written after posting the scenario session. -/
def stateMain : StateDict :=
  [("last_posted_session_key", Jval.num 9999)]

/-- A loaded state carrying an unrelated extra key. -/
def stateExtra : StateDict :=
  [("other_key", Jval.str "keep me")]

/-! Helper lemmas about the stable sort. -/

/-- Where `orderedInsert` puts the inserted element relative to the end
of the list: it stays last unless some element of `s` should come after
it. -/
theorem getLast?_orderedInsert {α : Type} (r : α → α → Prop) [DecidableRel r]
    (a : α) (s : List α) :
    (s.orderedInsert r a).getLast? =
      if ∃ b ∈ s, r a b then s.getLast? else some a := by
  induction s with
  | nil => simp
  | cons b t ih =>
    by_cases hab : r a b
    · have hex : ∃ x ∈ b :: t, r a x := ⟨b, List.mem_cons_self b t, hab⟩
      simp only [List.orderedInsert, if_pos hab, hex, if_true, List.getLast?_cons_cons]
    · have hne : t.orderedInsert r a ≠ [] := by
        intro h
        have := List.orderedInsert_length r t a
        rw [h] at this
        simp at this
      rcases hcons : t.orderedInsert r a with _ | ⟨c, u⟩
      · exact absurd hcons hne
      · have : ((b :: t).orderedInsert r a).getLast? = (t.orderedInsert r a).getLast? := by
          simp only [List.orderedInsert, if_neg hab, hcons, List.getLast?_cons_cons]
        rw [this, ih]
        by_cases hex : ∃ x ∈ t, r a x
        · rcases hex with ⟨x, hx, hax⟩
          have hex1 : ∃ x ∈ b :: t, r a x := ⟨x, List.mem_cons_of_mem b hx, hax⟩
          have hex2 : ∃ x ∈ t, r a x := ⟨x, hx, hax⟩
          rw [if_pos hex2, if_pos hex1]
          rcases t with _ | ⟨d, v⟩
          · simp at hx
          · rw [List.getLast?_cons_cons]
        · have hex1 : ¬ ∃ x ∈ b :: t, r a x := by
            rintro ⟨x, hx, hax⟩
            rcases List.mem_cons.mp hx with h | h
            · exact hab (h ▸ hax)
            · exact hex ⟨x, h, hax⟩
          rw [if_neg hex, if_neg hex1]

/-- `argmaxLastBy` returns `none` exactly on the empty list. -/
theorem argmaxLastBy_eq_none_iff {α : Type} (le : α → α → Bool) (l : List α) :
    argmaxLastBy le l = none ↔ l = [] := by
  cases l with
  | nil => simp [argmaxLastBy]
  | cons a l =>
    simp only [argmaxLastBy]
    rcases argmaxLastBy le l with _ | b
    · simp
    · simp only [List.cons_ne_nil, iff_false]
      split <;> simp

/-- The element selected by `argmaxLastBy` is a member and a maximum
with respect to `le` (assuming `le` total and transitive). -/
theorem argmaxLastBy_max {α : Type} (le : α → α → Bool)
    (h_total : ∀ a b, le a b = true ∨ le b a = true)
    (h_trans : ∀ a b c, le a b = true → le b c = true → le a c = true)
    (l : List α) (m : α) (hm : argmaxLastBy le l = some m) :
    m ∈ l ∧ ∀ x ∈ l, le x m = true := by
  induction l generalizing m with
  | nil => simp [argmaxLastBy] at hm
  | cons a l ih =>
    have hrefl : ∀ x : α, le x x = true := fun x => by
      rcases h_total x x with h | h <;> exact h
    rcases hb : argmaxLastBy le l with _ | b
    · simp only [argmaxLastBy, hb, Option.some.injEq] at hm
      subst hm
      have : l = [] := (argmaxLastBy_eq_none_iff le l).mp hb
      subst this
      refine ⟨List.mem_cons_self a [], ?_⟩
      intro x hx
      rcases List.mem_cons.mp hx with h | h
      · subst h; exact hrefl x
      · simp at h
    · simp only [argmaxLastBy, hb] at hm
      obtain ⟨hbmem, hbmax⟩ := ih b hb
      by_cases hab : le a b = true
      · rw [if_pos hab] at hm
        simp only [Option.some.injEq] at hm
        subst hm
        refine ⟨List.mem_cons_of_mem a hbmem, ?_⟩
        intro x hx
        rcases List.mem_cons.mp hx with h | h
        · subst h; exact hab
        · exact hbmax x h
      · rw [if_neg hab] at hm
        simp only [Option.some.injEq] at hm
        subst hm
        have hba : le b a = true := by
          rcases h_total a b with h | h
          · exact absurd h hab
          · exact h
        refine ⟨List.mem_cons_self a l, ?_⟩
        intro x hx
        rcases List.mem_cons.mp hx with h | h
        · subst h; exact hrefl x
        · exact h_trans x b a (hbmax x h) hba

/-- The last element of the stable ascending sort is the maximum, with
the later of equal elements winning: precisely `argmaxLastBy`. -/
theorem getLast?_pySort {α : Type} (le : α → α → Bool)
    (h_total : ∀ a b, le a b = true ∨ le b a = true)
    (h_trans : ∀ a b c, le a b = true → le b c = true → le a c = true)
    (l : List α) :
    (pySort le l).getLast? = argmaxLastBy le l := by
  induction l with
  | nil => rfl
  | cons a l ih =>
    have hsort : pySort le (a :: l) =
        (pySort le l).orderedInsert (fun x y => le x y = true) a := rfl
    rw [hsort, getLast?_orderedInsert]
    rcases hb : argmaxLastBy le l with _ | b
    · have hl : l = [] := (argmaxLastBy_eq_none_iff le l).mp hb
      subst hl
      simp [pySort, argmaxLastBy]
    · obtain ⟨hbmem, hbmax⟩ := argmaxLastBy_max le h_total h_trans l b hb
      simp only [argmaxLastBy, hb]
      by_cases hab : le a b = true
      · have hex : ∃ x ∈ pySort le l, le a x = true := by
          refine ⟨b, ?_, hab⟩
          exact (List.mem_insertionSort _).mpr hbmem
        rw [if_pos hex, ih, hb, if_pos hab]
      · have hex : ¬ ∃ x ∈ pySort le l, le a x = true := by
          rintro ⟨x, hx, hax⟩
          have hxl : x ∈ l := (List.mem_insertionSort _).mp hx
          exact hab (h_trans a x b hax (hbmax x hxl))
        rw [if_neg hex, if_neg hab]

/-- `strLeL` is total. -/
theorem strLeL_total (a : List Char) : ∀ b, strLeL a b = true ∨ strLeL b a = true := by
  induction a with
  | nil => intro b; left; rfl
  | cons x xs ih =>
    intro b
    cases b with
    | nil => right; rfl
    | cons y ys =>
      by_cases hxy : x.toNat < y.toNat
      · left; simp [strLeL, hxy]
      · by_cases hyx : y.toNat < x.toNat
        · right; simp [strLeL, hyx]
        · rcases ih ys with h | h
          · left; simp [strLeL, hxy, hyx, h]
          · right; simp [strLeL, hxy, hyx, h]

/-- `strLeL` is transitive. -/
theorem strLeL_trans : ∀ (a b c : List Char),
    strLeL a b = true → strLeL b c = true → strLeL a c = true
  | [], _, _, _, _ => rfl
  | _ :: _, [], _, hab, _ => by simp [strLeL] at hab
  | _ :: _, _ :: _, [], _, hbc => by simp [strLeL] at hbc
  | x :: xs, y :: ys, z :: zs, hab, hbc => by
    simp only [strLeL] at hab hbc ⊢
    by_cases hxy : x.toNat < y.toNat
    · by_cases hyz : y.toNat < z.toNat
      · have hxz : x.toNat < z.toNat := Nat.lt_trans hxy hyz
        simp [hxz]
      · have hzy : ¬ z.toNat < y.toNat := by
          intro hzy
          simp [hyz, hzy] at hbc
        have heq : y.toNat = z.toNat := by omega
        have hxz : x.toNat < z.toNat := heq ▸ hxy
        simp [hxz]
    · have hyx : ¬ y.toNat < x.toNat := by
        intro hyx
        simp [hxy, hyx] at hab
      have hxyeq : x.toNat = y.toNat := by omega
      by_cases hyz : y.toNat < z.toNat
      · have hxz : x.toNat < z.toNat := hxyeq ▸ hyz
        simp [hxz]
      · have hzy : ¬ z.toNat < y.toNat := by
          intro hzy
          simp [hyz, hzy] at hbc
        have hyzeq : y.toNat = z.toNat := by omega
        have hxz : ¬ x.toNat < z.toNat := by omega
        have hzx : ¬ z.toNat < x.toNat := by omega
        have htl : strLeL xs ys = true := by
          simpa [hxy, hyx] using hab
        have htl2 : strLeL ys zs = true := by
          simpa [hyz, hzy] using hbc
        simpa [hxz, hzx] using strLeL_trans xs ys zs htl htl2

/-- `strLe` is total. -/
theorem strLe_total (a b : String) : strLe a b = true ∨ strLe b a = true :=
  strLeL_total a.toList b.toList

/-- `strLe` is transitive. -/
theorem strLe_trans (a b c : String) (hab : strLe a b = true)
    (hbc : strLe b c = true) : strLe a c = true :=
  strLeL_trans a.toList b.toList c.toList hab hbc

/-- `intLe` is total. -/
theorem intLe_total (a b : Int) : intLe a b = true ∨ intLe b a = true := by
  simp only [intLe, decide_eq_true_eq]
  exact Int.le_total a b

/-- `intLe` is transitive. -/
theorem intLe_trans (a b c : Int) (hab : intLe a b = true)
    (hbc : intLe b c = true) : intLe a c = true := by
  simp only [intLe, decide_eq_true_eq] at hab hbc ⊢
  exact Int.le_trans hab hbc

/-- Totality lifts through a sort key. -/
theorem byKey_total {α κ : Type} (key : α → κ) (le : κ → κ → Bool)
    (h : ∀ a b, le a b = true ∨ le b a = true) (a b : α) :
    byKey key le a b = true ∨ byKey key le b a = true :=
  h (key a) (key b)

/-- Transitivity lifts through a sort key. -/
theorem byKey_trans {α κ : Type} (key : α → κ) (le : κ → κ → Bool)
    (h : ∀ a b c, le a b = true → le b c = true → le a c = true) (a b c : α)
    (hab : byKey key le a b = true) (hbc : byKey key le b c = true) :
    byKey key le a c = true :=
  h (key a) (key b) (key c) hab hbc

/-- The resolver equals the claim-side selection rule: the practice
entry with the greatest sort key, later entries winning ties. -/
theorem glps_eq_argmax (sessions : List Session) :
    get_latest_practice_session sessions =
      argmaxLastBy (byKey sort_key strLe)
        (sessions.filter (fun s => s.session_type == some "Practice")) := by
  unfold get_latest_practice_session
  by_cases h : (sessions.filter (fun s => s.session_type == some "Practice")).isEmpty
  · rw [if_pos h]
    have hnil : sessions.filter (fun s => s.session_type == some "Practice") = [] :=
      List.isEmpty_iff.mp h
    rw [hnil]
    rfl
  · rw [if_neg h]
    exact getLast?_pySort _ (byKey_total sort_key strLe strLe_total)
      (byKey_trans sort_key strLe strLe_trans) _

/-- Filtering by a predicate that only selects mutually `r`-related
elements commutes with `orderedInsert`: the inserted element lands in
front of the selected elements of the tail. -/
theorem filter_orderedInsert {α : Type} (r : α → α → Prop) [DecidableRel r]
    (q : α → Bool) (hq : ∀ x y, q x = true → q y = true → r x y)
    (a : α) (s : List α) :
    (s.orderedInsert r a).filter q =
      if q a then a :: s.filter q else s.filter q := by
  induction s with
  | nil =>
    simp only [List.orderedInsert, List.filter]
    cases q a <;> simp
  | cons b t ih =>
    by_cases hab : r a b
    · simp only [List.orderedInsert, if_pos hab]
      rw [List.filter_cons]
    · simp only [List.orderedInsert, if_neg hab]
      rw [List.filter_cons, ih, List.filter_cons]
      by_cases hqb : q b = true
      · have hqa : ¬ q a = true := fun hqa => hab (hq a b hqa hqb)
        simp [hqa, hqb]
      · simp [hqb]

/-- Stability of the sort: the subsequence of elements in one key class
is preserved. -/
theorem filter_pySort {α : Type} (le : α → α → Bool) (q : α → Bool)
    (hq : ∀ x y, q x = true → q y = true → le x y = true)
    (l : List α) :
    (pySort le l).filter q = l.filter q := by
  induction l with
  | nil => rfl
  | cons a l ih =>
    have hsort : pySort le (a :: l) =
        (pySort le l).orderedInsert (fun x y => le x y = true) a := rfl
    rw [hsort, filter_orderedInsert _ q hq a (pySort le l), ih, List.filter_cons]

/-- The sort returns a permutation of its input. -/
theorem pySort_perm {α : Type} (le : α → α → Bool) (l : List α) :
    List.Perm (pySort le l) l :=
  List.perm_insertionSort _ l

/-- The sort output is sorted with respect to the comparator. -/
theorem pySort_sorted {α : Type} (le : α → α → Bool)
    (h_total : ∀ a b, le a b = true ∨ le b a = true)
    (h_trans : ∀ a b c, le a b = true → le b c = true → le a c = true)
    (l : List α) :
    List.Sorted (fun a b => le a b = true) (pySort le l) := by
  haveI : IsTotal α (fun a b => le a b = true) := ⟨fun a b => h_total a b⟩
  haveI : IsTrans α (fun a b => le a b = true) := ⟨fun a b c => h_trans a b c⟩
  exact List.sorted_insertionSort _ l

/-- Reading back the key just written by `dictSet`. -/
theorem dictGet_dictSet (d : StateDict) (k : String) (v : Jval) :
    dictGet (dictSet d k v) k = v := by
  induction d with
  | nil => simp [dictSet, dictGet]
  | cons p rest ih =>
    rcases p with ⟨k', v'⟩
    by_cases h : k' = k
    · subst h
      simp [dictSet, dictGet]
    · simp only [dictSet, if_neg h]
      have hne : (k == k') = false := by
        simp [h]
        intro hkk
        exact h hkk.symm
      simp only [dictGet, List.lookup, hne]
      exact ih

/-- `dictSet` leaves every other key unchanged. -/
theorem lookup_dictSet_ne (d : StateDict) (k0 : String) (v : Jval)
    (k : String) (hk : k ≠ k0) :
    (dictSet d k0 v).lookup k = d.lookup k := by
  induction d with
  | nil =>
    have hne : (k == k0) = false := by
      simp [hk]
    simp [dictSet, List.lookup, hne]
  | cons p rest ih =>
    rcases p with ⟨k', v'⟩
    by_cases h : k' = k0
    · subst h
      have hne : (k == k') = false := by
        simp [hk]
      simp [dictSet, List.lookup, hne]
    · simp only [dictSet, if_neg h, List.lookup]
      rw [ih]

/-- Python `==` is reflexive on the image of an atom in the state file. -/
theorem pyEqAtom_toJval (a : Jatom) : pyEqAtom a.toJval a = true := by
  cases a <;> simp [Jatom.toJval, pyEqAtom]

/-- Characterization of a run that wrote state: it resolved a session
with a truthy key that was not gated, and the written state is the
loaded state with `last_posted_session_key` set to that key. -/
theorem mainRun_savedState_some {cfg : Config} {parseFmt : String → Option String}
    {state : StateDict} {sessions : List Session}
    {rowsOf : Jatom → List ResultRow} {state1 : StateDict}
    (h : (mainRun cfg parseFmt state sessions rowsOf).savedState = some state1) :
    ∃ sess, get_latest_practice_session sessions = some sess ∧
      sess.session_key.truthy = true ∧
      pyEqAtom (dictGet state "last_posted_session_key") sess.session_key = false ∧
      state1 = dictSet state "last_posted_session_key" sess.session_key.toJval := by
  rcases hg : get_latest_practice_session sessions with _ | sess
  · simp [mainRun, hg] at h
  · refine ⟨sess, rfl, ?_⟩
    simp only [mainRun, hg] at h
    by_cases ht : sess.session_key.truthy
    · simp only [ht, Bool.not_true] at h
      by_cases hgate : pyEqAtom (dictGet state "last_posted_session_key")
          sess.session_key = true
      · simp [hgate] at h
      · simp only [Bool.not_eq_true] at hgate
        simp only [hgate, Bool.false_eq_true, if_false, if_neg] at h
        by_cases hres : (get_session_results (rowsOf sess.session_key)).isEmpty
        · simp [hres] at h
        · simp only [hres, Bool.false_eq_true, if_false, Option.some.injEq] at h
          exact ⟨ht, hgate, h.symm⟩
    · simp only [Bool.not_eq_true] at ht
      simp [ht] at h

/-- The element selected by `argmaxLastBy` splits the list into a
prefix of elements no greater than it and a suffix of elements strictly
smaller: it is the last of the maximal elements. -/
theorem argmaxLastBy_split {α : Type} (le : α → α → Bool)
    (h_total : ∀ a b, le a b = true ∨ le b a = true)
    (h_trans : ∀ a b c, le a b = true → le b c = true → le a c = true)
    (l : List α) (m : α) (hm : argmaxLastBy le l = some m) :
    ∃ l₁ l₂, l = l₁ ++ m :: l₂ ∧ (∀ x ∈ l₁, le x m = true) ∧
      (∀ x ∈ l₂, le m x = false) := by
  induction l generalizing m with
  | nil => simp [argmaxLastBy] at hm
  | cons a l ih =>
    rcases hb : argmaxLastBy le l with _ | b
    · simp only [argmaxLastBy, hb, Option.some.injEq] at hm
      subst hm
      have : l = [] := (argmaxLastBy_eq_none_iff le l).mp hb
      subst this
      exact ⟨[], [], rfl, by simp, by simp⟩
    · simp only [argmaxLastBy, hb] at hm
      by_cases hab : le a b = true
      · rw [if_pos hab] at hm
        simp only [Option.some.injEq] at hm
        subst hm
        obtain ⟨l₁, l₂, heq, h₁, h₂⟩ := ih b hb
        refine ⟨a :: l₁, l₂, by rw [heq]; rfl, ?_, h₂⟩
        intro x hx
        rcases List.mem_cons.mp hx with h | h
        · subst h; exact hab
        · exact h₁ x h
      · rw [if_neg hab] at hm
        simp only [Option.some.injEq] at hm
        subst hm
        obtain ⟨hbmem, hbmax⟩ := argmaxLastBy_max le h_total h_trans l b hb
        refine ⟨[], l, rfl, by simp, ?_⟩
        intro x hx
        by_contra hax
        simp only [Bool.not_eq_false] at hax
        exact hab (h_trans a x b hax (hbmax x hx))

/-- `pyOrD` with an empty default is the plain `Option` collapse. -/
theorem pyOrD_empty (a : Option String) :
    pyOrD a "" = (match a with | none => "" | some s => s) := by
  cases a with
  | none => rfl
  | some s =>
    by_cases h : s = ""
    · subst h; rfl
    · simp [pyOrD, h]

/-- The line built by `main`'s loop body coincides with the format the
claim describes. -/
theorem renderLine_eq_specLine (row : ResultRow) :
    renderLine row = specLine row := by
  unfold renderLine specLine posText specInitial
  rw [pyOrD_empty row.driver_last_name, pyOrD_empty row.team_name]
  rcases row.driver_first_name with _ | s
  · rfl
  · by_cases h : s = ""
    · subst h; rfl
    · simp [pyOrD, h]

/-- The sort preserves emptiness. -/
theorem pySort_isEmpty {α : Type} (le : α → α → Bool) (l : List α) :
    (pySort le l).isEmpty = l.isEmpty := by
  rcases l with _ | ⟨a, t⟩
  · rfl
  · rcases hs : pySort le (a :: t) with _ | ⟨b, u⟩
    · have hlen := List.length_insertionSort (fun x y : α => le x y = true) (a :: t)
      rw [show (a :: t).insertionSort (fun x y : α => le x y = true) =
            pySort le (a :: t) from rfl, hs] at hlen
      simp at hlen
    · rfl

/-! Claim theorems. -/

/-- C1: running the pipeline a second time while the persisted
`last_posted_session_key` equals the resolved session's key terminates
at the `AlreadyPosted` branch: no results fetch, no webhook post, and
no state write, so a session's results are posted at most once across
runs. The persisted key comes from a previous run that posted
(`savedState = some state1`), which also makes it truthy. -/
theorem C1_second_run_already_posted
    (cfg cfg2 : Config) (pf pf2 : String → Option String)
    (state state1 : StateDict) (sessions sessions2 : List Session)
    (rowsOf rowsOf2 : Jatom → List ResultRow) (sess sess2 : Session)
    (hsaved : (mainRun cfg pf state sessions rowsOf).savedState = some state1)
    (hres1 : get_latest_practice_session sessions = some sess)
    (hres2 : get_latest_practice_session sessions2 = some sess2)
    (hkey : sess2.session_key = sess.session_key) :
    mainRun cfg2 pf2 state1 sessions2 rowsOf2 =
      ⟨.alreadyPosted, false, false, none⟩ := by
  obtain ⟨sess', hg', ht', _, hstate1⟩ := mainRun_savedState_some hsaved
  rw [hres1] at hg'
  injection hg' with hg'
  subst hg'
  subst hstate1
  simp only [mainRun, hres2, hkey]
  simp [ht', dictGet_dictSet, pyEqAtom_toJval]

/-- C1 witness: a concrete first run posts session 9999 and writes the
state; the second run with that state terminates at `AlreadyPosted`
with no fetch, no post, and no write. -/
theorem C1_second_run_already_posted_witness :
    (mainRun cfgW pfNone [] [sessMain] rowsOne).savedState = some stateMain ∧
    mainRun cfgW pfNone stateMain [sessMain] rowsOne =
      ⟨.alreadyPosted, false, false, none⟩ :=
  ⟨rfl, C1_second_run_already_posted cfgW cfgW pfNone pfNone [] stateMain
    [sessMain] [sessMain] rowsOne rowsOne sessMain sessMain rfl rfl rfl rfl⟩

/-- C2 (amended): the resolver returns exactly the practice entry with
the greatest code sort key, later entries winning ties; equivalently,
the returned entry is the last maximal one: practice entries before it
have keys no greater, practice entries after it have strictly smaller
keys. The amendment: the sort key uses `date_end` only when it is
truthy (present and nonempty) and likewise `date_start`, because
Python's `or` skips a present-but-empty timestamp, whereas the claim
said "present". -/
theorem C2_resolver_selects_latest_practice (sessions : List Session) :
    get_latest_practice_session sessions =
      argmaxLastBy (byKey sort_key strLe)
        (sessions.filter (fun s => s.session_type == some "Practice")) ∧
    ∀ sess, get_latest_practice_session sessions = some sess →
      ∃ l₁ l₂,
        sessions.filter (fun s => s.session_type == some "Practice") =
          l₁ ++ sess :: l₂ ∧
        (∀ x ∈ l₁, strLe (sort_key x) (sort_key sess) = true) ∧
        (∀ x ∈ l₂, strLe (sort_key sess) (sort_key x) = false) := by
  refine ⟨glps_eq_argmax sessions, ?_⟩
  intro sess h
  rw [glps_eq_argmax sessions] at h
  exact argmaxLastBy_split _ (byKey_total sort_key strLe strLe_total)
    (byKey_trans sort_key strLe strLe_trans) _ _ h

/-- C2 counterexample: with a practice entry whose `date_end` is
present but empty, the code and the claim's selection rule (key is
`date_end` if present, else `date_start`, else `""`) pick different
entries: the code's `or` falls through to `date_start` and picks
`sessEmptyEnd`, while the claim's key for that entry is `""` so the
claim picks `sessPlainEnd`. -/
theorem C2_resolver_counterexample :
    get_latest_practice_session [sessEmptyEnd, sessPlainEnd] =
      some sessEmptyEnd ∧
    argmaxLastBy (byKey claimKeyC2 strLe)
      ([sessEmptyEnd, sessPlainEnd].filter
        (fun s => s.session_type == some "Practice")) = some sessPlainEnd ∧
    sessEmptyEnd ≠ sessPlainEnd := by
  decide

/-- C2 witness: on a concrete list the resolver's result is the last
maximal practice entry. -/
theorem C2_resolver_selects_latest_practice_witness :
    ∃ l₁ l₂,
      [sessEmptyEnd, sessPlainEnd].filter
        (fun s => s.session_type == some "Practice") =
        l₁ ++ sessEmptyEnd :: l₂ ∧
      (∀ x ∈ l₁, strLe (sort_key x) (sort_key sessEmptyEnd) = true) ∧
      (∀ x ∈ l₂, strLe (sort_key sessEmptyEnd) (sort_key x) = false) :=
  (C2_resolver_selects_latest_practice [sessEmptyEnd, sessPlainEnd]).2
    sessEmptyEnd (by decide)

/-- C3: with no practice session resolved, or with an empty results
fetch for the gated key, the run sends no webhook message and writes no
state; the state being unchanged, a later run for the same key whose
fetch is nonempty still posts. -/
theorem C3_empty_cases_no_side_effects
    (cfg : Config) (pf : String → Option String) (state : StateDict)
    (sessions : List Session) (rowsOf : Jatom → List ResultRow) :
    (get_latest_practice_session sessions = none →
      mainRun cfg pf state sessions rowsOf =
        ⟨.noSession, false, false, none⟩) ∧
    (∀ sess, get_latest_practice_session sessions = some sess →
      sess.session_key.truthy = true →
      pyEqAtom (dictGet state "last_posted_session_key")
        sess.session_key = false →
      rowsOf sess.session_key = [] →
      mainRun cfg pf state sessions rowsOf =
        ⟨.noResults, true, false, none⟩ ∧
      ∀ rowsOf2 : Jatom → List ResultRow, rowsOf2 sess.session_key ≠ [] →
        mainRun cfg pf state sessions rowsOf2 =
          ⟨.posted (buildTitle pf sess)
              (buildLines (get_session_results (rowsOf2 sess.session_key))
                cfg.topN),
            true, truthyStr cfg.webhook,
            some (dictSet state "last_posted_session_key"
              sess.session_key.toJval)⟩) := by
  constructor
  · intro h
    simp [mainRun, h]
  · intro sess hg ht hgate hrows
    constructor
    · have hempty : (get_session_results (rowsOf sess.session_key)).isEmpty = true := by
        rw [hrows]
        rfl
      simp [mainRun, hg, ht, hgate, hempty]
    · intro rowsOf2 hne
      have hnonempty :
          (get_session_results (rowsOf2 sess.session_key)).isEmpty = false := by
        rw [show get_session_results (rowsOf2 sess.session_key) =
              pySort (byKey posKey intLe) (rowsOf2 sess.session_key) from rfl,
          pySort_isEmpty]
        rcases hr : rowsOf2 sess.session_key with _ | ⟨r, rs⟩
        · exact absurd hr hne
        · rfl
      simp [mainRun, hg, ht, hgate, hnonempty]

/-- C3 witness: concretely, an empty session list ends at `NoSession`,
and a run whose results fetch is empty ends at `NoResults`, both with
no send and no write. -/
theorem C3_empty_cases_no_side_effects_witness :
    mainRun cfgW pfNone [] [] rowsNone = ⟨.noSession, false, false, none⟩ ∧
    mainRun cfgW pfNone [] [sessMain] rowsNone =
      ⟨.noResults, true, false, none⟩ :=
  ⟨(C3_empty_cases_no_side_effects cfgW pfNone [] [] rowsNone).1 rfl,
   ((C3_empty_cases_no_side_effects cfgW pfNone [] [sessMain] rowsNone).2
     sessMain rfl rfl rfl rfl).1⟩

/-- C4 (amended): `get_session_results` returns a permutation of the
input rows, sorted ascending by the effective key (position if present
and nonzero, else the sentinel 9999) and stable (each key class keeps
its input order); rows themselves are unchanged. The amendment: a
present position `0` is falsy for Python's `or`, so it is ordered as
9999 as well, which the claim's "absent position" wording does not
cover. -/
theorem C4_results_sorted_stable (rows : List ResultRow) :
    List.Perm (get_session_results rows) rows ∧
    List.Sorted (fun a b => intLe (posKey a) (posKey b) = true)
      (get_session_results rows) ∧
    ∀ k : Int, (get_session_results rows).filter (fun r => posKey r == k) =
      rows.filter (fun r => posKey r == k) := by
  refine ⟨pySort_perm _ rows,
    pySort_sorted _ (byKey_total posKey intLe intLe_total)
      (byKey_trans posKey intLe intLe_trans) rows, ?_⟩
  intro k
  apply filter_pySort
  intro x y hx hy
  have hxk : posKey x = k := by simpa using hx
  have hyk : posKey y = k := by simpa using hy
  simp [byKey, intLe, hxk, hyk]

/-- C4 counterexample: a present position `0` is falsy in Python, so
the code orders it with the sentinel 9999 and the returned list is not
ascending in the claim's key (position if present, else 9999): the
sorted output keeps position 1 before position 0. -/
theorem C4_results_counterexample :
    get_session_results [rowP1, rowP0] = [rowP1, rowP0] ∧
    ¬ List.Sorted (fun a b => claimPosKey a ≤ claimPosKey b)
        (get_session_results [rowP1, rowP0]) := by
  decide

/-- C5: `format_when` is total (the `try/except` catches every parse
failure); with both timestamps absent it returns `""`, and when the
chosen timestamp fails to parse (after the `Z` replacement) it returns
the raw timestamp string unchanged. -/
theorem C5_format_when_fallbacks
    (parseFmt : String → Option String) (meta : Session) :
    (meta.date_end = none → meta.date_start = none →
      format_when parseFmt meta = "") ∧
    (∀ iso, pyOr meta.date_end meta.date_start = some iso → iso ≠ "" →
      parseFmt (iso.replace "Z" "+00:00") = none →
      format_when parseFmt meta = iso) := by
  constructor
  · intro h1 h2
    simp [format_when, pyOr, h1, h2]
  · intro iso hiso hne hparse
    simp [format_when, hiso, hne, hparse]

/-- C5 witness: a session with no timestamps formats to `""`, and an
unparsable timestamp is returned unchanged. -/
theorem C5_format_when_fallbacks_witness :
    format_when pfNone sessNoDates = "" ∧
    format_when pfNone sessBadDate = "not-a-date" :=
  ⟨(C5_format_when_fallbacks pfNone sessNoDates).1 rfl rfl,
   (C5_format_when_fallbacks pfNone sessBadDate).2 "not-a-date" rfl
     (by decide) rfl⟩

/-- C6: when no entry's `session_type` equals the case-sensitive string
`"Practice"`, the resolver returns `None`. -/
theorem C6_no_practice_returns_none (sessions : List Session)
    (h : ∀ s ∈ sessions, s.session_type ≠ some "Practice") :
    get_latest_practice_session sessions = none := by
  have hnil : sessions.filter (fun s => s.session_type == some "Practice") = [] := by
    rw [List.filter_eq_nil_iff]
    intro s hs
    simp [h s hs]
  simp [get_latest_practice_session, hnil]

/-- C6 witness: a list holding only a race session resolves to `None`. -/
theorem C6_no_practice_returns_none_witness :
    get_latest_practice_session [sessRace] = none :=
  C6_no_practice_returns_none [sessRace] (by decide)

/-- C7: `load_state` is total (`try/except` plus the existence check),
and whenever the file is missing, unparsable, or parses to a non-object
value, the resulting state has `last_posted_session_key` absent or
null. -/
theorem C7_load_state_defaults
    (parse : String → Option Jval) (file : Option String)
    (h : ∀ content fields, file = some content →
      parse content ≠ some (.obj fields)) :
    (load_state parse file).getKey "last_posted_session_key" = none ∨
    (load_state parse file).getKey "last_posted_session_key" =
      some .null := by
  cases file with
  | none => right; rfl
  | some content =>
    rcases hp : parse content with _ | v
    · right
      simp [load_state, hp, defaultState, Jval.getKey]
    · cases v with
      | null => left; simp [load_state, hp, Jval.getKey]
      | bool b => left; simp [load_state, hp, Jval.getKey]
      | num n => left; simp [load_state, hp, Jval.getKey]
      | str s => left; simp [load_state, hp, Jval.getKey]
      | arr elems => left; simp [load_state, hp, Jval.getKey]
      | obj fields => exact absurd hp (h content fields rfl)

/-- C7 witness: an unparsable file content loads to the default state,
whose key is null. -/
theorem C7_load_state_defaults_witness :
    (load_state (fun _ => none) (some "not json")).getKey
        "last_posted_session_key" = none ∨
    (load_state (fun _ => none) (some "not json")).getKey
        "last_posted_session_key" = some .null :=
  C7_load_state_defaults (fun _ => none) (some "not json")
    (fun _ _ _ hobj => Option.noConfusion hobj)

/-- C8: each of the first `topN` message lines is exactly the claim's
format for the corresponding sorted row: position as-is (the literal
`"None"` when missing), first-initial plus surname stripped of leading
and trailing periods and spaces, and team and lap fields defaulting to
empty strings. -/
theorem C8_line_format (rows : List ResultRow) (topN i : Nat)
    (row : ResultRow)
    (h : ((get_session_results rows).take topN)[i]? = some row) :
    (buildLines (get_session_results rows) topN)[i]? =
      some (specLine row) := by
  unfold buildLines
  rw [List.getElem?_map, h]
  simp [renderLine_eq_specLine]

/-- C8 witness: the first line for a concrete row matches the claim's
format. -/
theorem C8_line_format_witness :
    ((get_session_results [rowVer]).take 3)[0]? = some rowVer ∧
    (buildLines (get_session_results [rowVer]) 3)[0]? =
      some (specLine rowVer) :=
  ⟨rfl, C8_line_format [rowVer] 3 0 rowVer rfl⟩

/-- C9: the state written on the success path differs from the loaded
state only at `last_posted_session_key`; every other key keeps its
loaded value. -/
theorem C9_save_preserves_other_keys
    (cfg : Config) (pf : String → Option String) (state : StateDict)
    (sessions : List Session) (rowsOf : Jatom → List ResultRow)
    (state1 : StateDict)
    (h : (mainRun cfg pf state sessions rowsOf).savedState = some state1)
    (k : String) (hk : k ≠ "last_posted_session_key") :
    state1.lookup k = state.lookup k := by
  obtain ⟨sess, _, _, _, hstate1⟩ := mainRun_savedState_some h
  subst hstate1
  exact lookup_dictSet_ne state _ _ k hk

/-- C9 witness: a successful run from a state carrying an unrelated key
preserves that key's value in the written state. -/
theorem C9_save_preserves_other_keys_witness :
    (mainRun cfgW pfNone stateExtra [sessMain] rowsOne).savedState =
      some (stateExtra ++ stateMain) ∧
    (stateExtra ++ stateMain).lookup "other_key" =
      stateExtra.lookup "other_key" :=
  ⟨rfl, C9_save_preserves_other_keys cfgW pfNone stateExtra [sessMain]
    rowsOne (stateExtra ++ stateMain) rfl "other_key" (by decide)⟩

/-- C10: a resolved session whose key is falsy (null, `False`, `0`, or
`""`) ends the run at the no-key branch: no results fetch, no webhook
post, no state write. -/
theorem C10_falsy_key_stops_run
    (cfg : Config) (pf : String → Option String) (state : StateDict)
    (sessions : List Session) (rowsOf : Jatom → List ResultRow)
    (sess : Session)
    (hg : get_latest_practice_session sessions = some sess)
    (hfalsy : sess.session_key.truthy = false) :
    mainRun cfg pf state sessions rowsOf = ⟨.noKey, false, false, none⟩ := by
  simp [mainRun, hg, hfalsy]

/-- C10 witness: a practice session with the integer key 0 ends the run
at the no-key branch. -/
theorem C10_falsy_key_stops_run_witness :
    get_latest_practice_session [sessZeroKey] = some sessZeroKey ∧
    mainRun cfgW pfNone [] [sessZeroKey] rowsOne =
      ⟨.noKey, false, false, none⟩ :=
  ⟨rfl, C10_falsy_key_stops_run cfgW pfNone [] [sessZeroKey] rowsOne
    sessZeroKey rfl rfl⟩

end F1Bot
